import Mathlib

/-!
Verification of the dyld self-relocation bootstrap (dyldInitialization.cpp)
and the transactional load engine it fronts.

The embedding follows the source: rebaseDyld, start, start_sim are modelled
as trace-producing functions over an explicit image/memory state.  The fixup
chain decoder (fixupAllChainedFixups) and the dlopen load orchestrator are
not part of the sources here, so those are modelled from the spec where
indicated.
-/

set_option autoImplicit false

namespace DyldSpec

/-! ## Fixup chain data model -/

/-- Kind of one chained-fixup slot descriptor: a rebase carries a target
offset within the image; a bind carries a symbol ordinal and signed addend. -/
inductive FixupKind where
  | rebase (targetOffset : Nat)
  | bind (ordinal : Nat) (addend : Int)
deriving DecidableEq

/-- One pointer-sized slot descriptor in a fixup chain. -/
structure ChainEntry where
  slotOffset : Nat
  kind : FixupKind
deriving DecidableEq

/-- Failures the fixup chain decoder can report. -/
inductive FixupError where
  | MalformedFixupChain
  | UnresolvedSymbol
deriving DecidableEq

/-- Process memory, addressed by byte address, holding pointer-sized values. -/
def Memory := Nat → Int

/-- Write a pointer-sized value at an address. -/
def writeSlot (mem : Memory) (addr : Nat) (v : Int) : Memory :=
  fun a => if a = addr then v else mem a

/-- Pointer size in bytes. -/
def ptrSize : Nat := 8

/-- A slot is in bounds when the whole pointer fits inside the segment. -/
def slotInBounds (segSize : Nat) (e : ChainEntry) : Bool :=
  e.slotOffset + ptrSize ≤ segSize

/-- Modelled from the spec: resolve one chain entry (the per-entry step of
the Fixup Chain Decoder, whose implementation fixupAllChainedFixups is not
among the sources).  A rebase resolves to target offset plus slide; a bind
resolves to the ordinal's symbol address plus the addend.  Slot offsets
outside the segment are rejected with MalformedFixupChain before anything
is written; ordinals outside the external-symbol table are rejected with
UnresolvedSymbol. -/
def resolveKind (slide : Nat) (symTable : List Nat) (so : Nat) :
    FixupKind → Except FixupError (Nat × Int)
  | .rebase t => .ok (so, ((t + slide : Nat) : Int))
  | .bind ord addend =>
    match symTable.get? ord with
    | some symAddr => .ok (so, (symAddr : Int) + addend)
    | none => .error .UnresolvedSymbol

/-- Modelled from the spec: resolve one chain entry, checking the slot
bound before anything else (see the kind resolution above). -/
def resolveEntry (segSize slide : Nat) (symTable : List Nat) (e : ChainEntry) :
    Except FixupError (Nat × Int) :=
  if slotInBounds segSize e then resolveKind slide symTable e.slotOffset e.kind
  else .error .MalformedFixupChain

/-- Modelled from the spec: decode a whole chain into a validated list of
(slot offset, value) operations, failing on the first invalid entry and
producing no operations at all in that case. -/
def decodeChain (segSize slide : Nat) (symTable : List Nat) :
    List ChainEntry → Except FixupError (List (Nat × Int))
  | [] => .ok []
  | e :: rest =>
    match resolveEntry segSize slide symTable e with
    | .error err => .error err
    | .ok v =>
      match decodeChain segSize slide symTable rest with
      | .error err => .error err
      | .ok vs => .ok (v :: vs)

/-- Apply a validated list of operations to memory, in chain order. -/
def applyOps (mem : Memory) (segBase : Nat) (ops : List (Nat × Int)) : Memory :=
  ops.foldl (fun m p => writeSlot m (segBase + p.1) p.2) mem

/-- The fixup chain of one segment: the segment's base address, mapped
size, and the ordered entries of the chain. -/
structure SegmentChain where
  segBase : Nat
  segSize : Nat
  entries : List ChainEntry
deriving DecidableEq

/-- Modelled from the spec: run the decoder in apply mode on one segment
chain.  The chain is validated in full before any write; on failure the
memory is returned untouched together with the failure. -/
def runChainApply (c : SegmentChain) (slide : Nat) (symTable : List Nat)
    (mem : Memory) : Memory × Option FixupError :=
  match decodeChain c.segSize slide symTable c.entries with
  | .error e => (mem, some e)
  | .ok ops => (applyOps mem c.segBase ops, none)

/-- Modelled from the spec: validate the chains of every segment before
writing anything (the decoder decodes into a validated intermediate
representation before any write). -/
def decodeAllChains (slide : Nat) (symTable : List Nat) :
    List SegmentChain → Except FixupError (List (Nat × List (Nat × Int)))
  | [] => .ok []
  | c :: rest =>
    match decodeChain c.segSize slide symTable c.entries with
    | .error e => .error e
    | .ok ops =>
      match decodeAllChains slide symTable rest with
      | .error e => .error e
      | .ok rs => .ok ((c.segBase, ops) :: rs)

/-- Modelled from the spec: fixupAllChainedFixups applies every segment
chain of an image with the given slide and external-symbol table; on any
decode failure nothing is written and the failure is reported. -/
def fixupAllChainedFixups (chains : List SegmentChain) (slide : Nat)
    (symTable : List Nat) (mem : Memory) : Memory × Option FixupError :=
  match decodeAllChains slide symTable chains with
  | .error e => (mem, some e)
  | .ok segOps => (segOps.foldl (fun m p => applyOps m p.1 p.2) mem, none)

/-! ## Image model and rebaseDyld -/

/-- Memory protection flags, as passed to mprotect. -/
structure Prot where
  read : Bool
  write : Bool
  exec : Bool
deriving DecidableEq

/-- The read-only protection used for the DATA_CONST downgrade. -/
def VM_PROT_READ : Prot := ⟨true, false, false⟩

/-- One segment of a mapped image, as reported by forEachSegment. -/
structure SegmentInfo where
  vmAddr : Nat
  vmSize : Nat
  readOnlyData : Bool
  initProt : Prot
deriving DecidableEq

/-- A mapped Mach-O image: its actual load address, statically preferred
base, whether it has chained-fixups metadata, its segments, and its
per-segment fixup chains. -/
structure MachOImage where
  loadAddress : Nat
  preferredBase : Nat
  hasChainedFixups : Bool
  segments : List SegmentInfo
  chains : List SegmentChain

/-- Events emitted while rebaseDyld runs, in program order. -/
inductive RDEvent where
  | applyChainedFixups (slide : Nat) (symTable : List Nat)
  | machInit
  | mprotectCall (addr : Nat) (size : Nat) (prot : Prot)
deriving DecidableEq

/-- Reasons rebaseDyld terminates the process. -/
inductive FatalReason where
  | assertNoChainedFixups
  | diagAssertError (e : FixupError)
deriving DecidableEq

/-- Outcome of rebaseDyld: either a successful run with its event trace,
final memory and final per-segment protections, or a fatal abort with the
memory at the moment of the abort. -/
inductive RDResult where
  | ok (trace : List RDEvent) (mem : Memory) (prots : List Prot)
  | fatal (reason : FatalReason) (mem : Memory)

/-- The slide rebaseDyld uses: all fixup-chain based images have a base
address of zero, so the code takes the load address itself as the slide. -/
def slideFor (img : MachOImage) : Nat := img.loadAddress

/-- Per-segment protections after rebaseDyld: every read-only-data segment
is downgraded to read-only, all other segments keep their protection. -/
def protAfterRebase (img : MachOImage) : List Prot :=
  img.segments.map (fun s => if s.readOnlyData then VM_PROT_READ else s.initProt)

/-- The mprotect calls rebaseDyld issues: one per read-only-data segment,
in segment order. -/
def mprotectEvents (img : MachOImage) : List RDEvent :=
  (img.segments.filter (fun s => s.readOnlyData)).map
    (fun s => .mprotectCall (img.loadAddress + s.vmAddr) s.vmSize VM_PROT_READ)

/-- Embedding of rebaseDyld (dyldInitialization.cpp, rebaseDyld): assert
the image has chained fixups; apply all fixup chains with slide equal to
the load address and an empty external-symbol table; abort on any diag
error; then initialize the mach/syscall layer; then mark each
read-only-data segment read-only. -/
def rebaseDyld (img : MachOImage) (mem : Memory) : RDResult :=
  if img.hasChainedFixups then
    match fixupAllChainedFixups img.chains (slideFor img) [] mem with
    | (m, some e) => .fatal (.diagAssertError e) m
    | (m, none) =>
      .ok ([.applyChainedFixups (slideFor img) [], .machInit] ++ mprotectEvents img)
        m (protAfterRebase img)
  else .fatal .assertNoChainedFixups mem

/-- The event trace of a successful rebaseDyld run. -/
def RDResult.traceOf : RDResult → Option (List RDEvent)
  | .ok tr _ _ => some tr
  | .fatal _ _ => none

/-! ## Bootstrap entry paths: start and start_sim -/

/-- Events of the bootstrap entry paths, in program order. -/
inductive BootEvent where
  | kdebugTraceMarker
  | globalWrite (name : String)
  | rebaseDyldRun
  | guardSetup
  | syncProcessInfoRun
  | callMain
deriving DecidableEq

/-- Embedding of dyldbootstrap::start as its event trace: the kdebug
marker, then rebaseDyld, then (if rebaseDyld did not abort) the stack
guard setup and the call into dyld main. -/
def startTrace (img : MachOImage) (mem : Memory) : List BootEvent :=
  [.kdebugTraceMarker, .rebaseDyldRun] ++
    match rebaseDyld img mem with
    | .fatal _ _ => []
    | .ok _ _ _ => [.guardSetup, .callMain]

/-- Embedding of start_sim as its event trace: the write of the loader
global gSyscallHelpers, then rebaseDyld, then (if it did not abort) the
guard setup, the write of gProcessInfo, syncProcessInfo, and dyld main. -/
def startSimTrace (img : MachOImage) (mem : Memory) : List BootEvent :=
  [.globalWrite "gSyscallHelpers", .rebaseDyldRun] ++
    match rebaseDyld img mem with
    | .fatal _ _ => []
    | .ok _ _ _ =>
      [.guardSetup, .globalWrite "gProcessInfo", .syncProcessInfoRun, .callMain]

/-- Memory and segment protections at the end of a successful start path
(nothing after rebaseDyld changes protections on that path). -/
def startFinal (img : MachOImage) (mem : Memory) : Option (Memory × List Prot) :=
  match rebaseDyld img mem with
  | .ok _ m p => some (m, p)
  | .fatal _ _ => none

/-- The final protection of segment i after a successful bootstrap. -/
def startProtAt (img : MachOImage) (mem : Memory) (i : Nat) : Option Prot :=
  match startFinal img mem with
  | some (_, p) => p.get? i
  | none => none

/-- Whether an event is an mprotect call. -/
def isMprotectCall : RDEvent → Bool
  | .mprotectCall _ _ _ => true
  | _ => false

/-- The spec ordering for step 4: every machInit in the trace occurs after
every mprotect call (no mprotect follows a machInit). -/
def machInitOnlyAfterProtects : List RDEvent → Bool
  | [] => true
  | RDEvent.machInit :: rest =>
    rest.all (fun e => !(isMprotectCall e)) && machInitOnlyAfterProtects rest
  | _ :: rest => machInitOnlyAfterProtects rest

/-- Whether a boot event reads or writes a loader global. -/
def isGlobalAccess : BootEvent → Bool
  | .globalWrite _ => true
  | _ => false

/-- Whether a boot event is the rebaseDyld invocation. -/
def isRebaseRun : BootEvent → Bool
  | .rebaseDyldRun => true
  | _ => false

/-- The events of a bootstrap path that occur before rebaseDyld runs. -/
def beforeRebase (tr : List BootEvent) : List BootEvent :=
  tr.takeWhile (fun e => !(isRebaseRun e))

/-- How many times rebaseDyld runs on a bootstrap path. -/
def rebaseRunCount (tr : List BootEvent) : Nat :=
  tr.countP isRebaseRun

/-- True when no loader global is read or written before rebaseDyld. -/
def noGlobalAccessBeforeRebase (tr : List BootEvent) : Bool :=
  (beforeRebase tr).all (fun e => !(isGlobalAccess e))

/-! ## Load orchestrator and registry (modelled from the spec) -/

/-- Modelled from the spec: the per-image data the Load Orchestrator needs
(the orchestrator, resolver and registry code behind dlopen is not among
the sources, only its test).  An image has an identifying path, declared
dependency identifiers, and whether its Bind step succeeds (every required
symbol resolvable). -/
structure ImageSpec where
  path : String
  deps : List String
  bindsOk : Bool
deriving DecidableEq

/-- Failure reasons of a load transaction. -/
inductive LoadError where
  | DependencyNotFound
  | CyclicUnloadableDependency
  | UnresolvedSymbol
deriving DecidableEq

/-- Modelled from the spec: the Collect step of the Load Orchestrator.
Starting from pending identifiers, reuse images already in the registry or
already collected, look the rest up among the available images, and recurse
into their dependencies, accumulating every newly introduced image.  Fuel
bounds the traversal; running out reports an unloadable cycle. -/
def collect (univ : List ImageSpec) (reg : List String) :
    Nat → List String → List ImageSpec → Except LoadError (List ImageSpec)
  | _, [], acc => .ok acc
  | 0, _ :: _, _ => .error .CyclicUnloadableDependency
  | fuel + 1, p :: rest, acc =>
    if p ∈ reg ∨ p ∈ acc.map ImageSpec.path then
      collect univ reg fuel rest acc
    else
      match univ.find? (fun i => i.path == p) with
      | none => .error .DependencyNotFound
      | some img => collect univ reg fuel (img.deps ++ rest) (acc ++ [img])

/-- Modelled from the spec: load (the dlopen entry point) with the
must-resolve-now flag runs Collect, then (with the flag set) checks that
every newly introduced image binds; on any failure it returns a null
handle and leaves the registry untouched, otherwise it commits every new
path to the registry and returns a handle. -/
def load (univ : List ImageSpec) (reg : List String) (root : String)
    (mustResolveNow : Bool) (fuel : Nat) : Option Nat × List String :=
  match collect univ reg fuel [root] [] with
  | .error _ => (none, reg)
  | .ok imgs =>
    if mustResolveNow && !(imgs.all (fun i => i.bindsOk)) then
      (none, reg)
    else
      (some reg.length, reg ++ imgs.map ImageSpec.path)

/-- Introspection: number of registered images. -/
def image_count (reg : List String) : Nat := reg.length

/-- Introspection: path of the registered image at an index, if any. -/
def image_name_at (reg : List String) (i : Nat) : Option String := reg.get? i

/-! ## Concrete fixtures -/

/-- All-zero initial memory. -/
def mem0 : Memory := fun _ => 0

/-- A loader image with one rebase fixup and one read-only-data segment,
on which rebaseDyld succeeds. -/
def imgOk : MachOImage :=
  { loadAddress := 4096
    preferredBase := 0
    hasChainedFixups := true
    segments := [⟨0, 256, false, ⟨true, true, false⟩⟩,
                 ⟨256, 128, true, ⟨true, true, false⟩⟩]
    chains := [⟨4352, 128, [⟨0, .rebase 512⟩]⟩] }

/-- A loader image whose chains hold both a bind entry and an
out-of-bounds rebase slot, so both error kinds arise during bootstrap. -/
def imgBadChains : MachOImage :=
  { loadAddress := 4096
    preferredBase := 0
    hasChainedFixups := true
    segments := [⟨0, 256, false, ⟨true, true, false⟩⟩]
    chains := [⟨4096, 128, [⟨0, .bind 0 0⟩]⟩, ⟨4096, 8, [⟨100, .rebase 5⟩]⟩] }

/-- A loader image without chained-fixups metadata. -/
def imgNoCF : MachOImage :=
  { loadAddress := 4096
    preferredBase := 0
    hasChainedFixups := false
    segments := []
    chains := [] }

/-- Sample available images: a depends on b, b on c, and c fails to bind. -/
def specA : ImageSpec := ⟨"liba", ["libb"], true⟩

/-- Sample image b. -/
def specB : ImageSpec := ⟨"libb", ["libc"], true⟩

/-- Sample image c, which fails to bind. -/
def specC : ImageSpec := ⟨"libc", [], false⟩

/-- The sample universe of locatable images. -/
def sampleUniv : List ImageSpec := [specA, specB, specC]

/-- The sample pre-attempt registry. -/
def sampleReg : List String := ["dyld", "main"]

/-- A chain used as a concrete rebase-correctness input. -/
def chainOk : SegmentChain := ⟨4096, 64, [⟨0, .rebase 100⟩, ⟨8, .rebase 200⟩]⟩

/-- A chain whose single entry has an out-of-bounds slot offset. -/
def chainBadSlot : SegmentChain := ⟨4096, 8, [⟨100, .rebase 5⟩]⟩

/-- A chain whose single entry has an out-of-bounds bind ordinal. -/
def chainBadOrd : SegmentChain := ⟨4096, 64, [⟨0, .bind 7 3⟩]⟩

/-! ## Decoder lemmas -/

theorem resolveEntry_fst (segSize slide : Nat) (symTable : List Nat) (e : ChainEntry)
    (v : Nat × Int) (h : resolveEntry segSize slide symTable e = .ok v) :
    v.1 = e.slotOffset := by
  unfold resolveEntry at h
  cases hin : slotInBounds segSize e
  · rw [hin] at h; simp at h
  · rw [hin] at h
    simp only [if_true] at h
    cases hk : e.kind with
    | rebase t => rw [hk] at h; cases h; rfl
    | bind ord a =>
      rw [hk] at h
      simp only [resolveKind] at h
      cases hs : symTable.get? ord with
      | some s => rw [hs] at h; cases h; rfl
      | none => rw [hs] at h; simp at h

theorem decodeChain_ok_offsets (segSize slide : Nat) (symTable : List Nat) :
    ∀ (entries : List ChainEntry) (ops : List (Nat × Int)),
      decodeChain segSize slide symTable entries = .ok ops →
      ops.map Prod.fst = entries.map ChainEntry.slotOffset
  | [], ops, h => by
      unfold decodeChain at h; cases h; rfl
  | e :: rest, ops, h => by
      unfold decodeChain at h
      cases hr : resolveEntry segSize slide symTable e with
      | error err => rw [hr] at h; cases h
      | ok v =>
        rw [hr] at h
        cases hd : decodeChain segSize slide symTable rest with
        | error err => rw [hd] at h; cases h
        | ok vs =>
          rw [hd] at h
          cases h
          simp only [List.map_cons]
          rw [decodeChain_ok_offsets segSize slide symTable rest vs hd,
            resolveEntry_fst segSize slide symTable e v hr]

theorem applyOps_out (segBase addr : Nat) :
    ∀ (ops : List (Nat × Int)) (mem : Memory),
      (∀ p ∈ ops, segBase + p.1 ≠ addr) →
      applyOps mem segBase ops addr = mem addr
  | [], _, _ => rfl
  | p :: ops, mem, h => by
      have hrec := applyOps_out segBase addr ops
        (writeSlot mem (segBase + p.1) p.2)
        (fun q hq => h q (List.mem_cons_of_mem _ hq))
      unfold applyOps at hrec ⊢
      simp only [List.foldl_cons]
      rw [hrec]
      unfold writeSlot
      rw [if_neg (fun hc => h p (List.mem_cons_self _ _) hc.symm)]

theorem decode_apply_rebase (segSize slide : Nat) (symTable : List Nat) :
    ∀ (entries : List ChainEntry) (ops : List (Nat × Int)) (mem : Memory)
      (segBase o T : Nat),
      decodeChain segSize slide symTable entries = .ok ops →
      (⟨o, .rebase T⟩ : ChainEntry) ∈ entries →
      (entries.map ChainEntry.slotOffset).Nodup →
      applyOps mem segBase ops (segBase + o) = ((T + slide : Nat) : Int)
  | [], _, _, _, _, _, _, hmem, _ => absurd hmem (List.not_mem_nil _)
  | e :: rest, ops, mem, segBase, o, T, h, hmem, hnodup => by
      unfold decodeChain at h
      cases hr : resolveEntry segSize slide symTable e with
      | error err => rw [hr] at h; cases h
      | ok v =>
        rw [hr] at h
        cases hd : decodeChain segSize slide symTable rest with
        | error err => rw [hd] at h; cases h
        | ok vs =>
          rw [hd] at h
          cases h
          rcases List.mem_cons.mp hmem with heq | hmem'
          · subst heq
            unfold resolveEntry at hr
            cases hin : slotInBounds segSize (⟨o, .rebase T⟩ : ChainEntry)
            · rw [hin] at hr; simp at hr
            · rw [hin] at hr
              simp only [if_true] at hr
              cases hr
              unfold applyOps
              simp only [List.foldl_cons]
              have hout : ∀ p ∈ vs, segBase + p.1 ≠ segBase + o := by
                intro p hp hc
                have hp1 : p.1 ∈ vs.map Prod.fst := List.mem_map_of_mem _ hp
                rw [decodeChain_ok_offsets segSize slide symTable rest vs hd] at hp1
                have : p.1 = o := Nat.add_left_cancel hc
                rw [this] at hp1
                exact (List.nodup_cons.mp hnodup).1 hp1
              have := applyOps_out segBase (segBase + o) vs
                (writeSlot mem (segBase + o) ((T + slide : Nat) : Int)) hout
              unfold applyOps at this
              rw [this]
              unfold writeSlot
              rw [if_pos rfl]
          · exact decode_apply_rebase segSize slide symTable rest vs
              (writeSlot mem (segBase + v.1) v.2) segBase o T hd hmem'
              (List.nodup_cons.mp hnodup).2

/-- C4: for every rebase-kind chain entry with target offset T in an image
loaded at slide S, after the Rebase step the pointer-sized slot at
segment base plus slot offset holds exactly T + S. -/
theorem rebase_entry_writes_target_plus_slide (c : SegmentChain) (slide : Nat)
    (symTable : List Nat) (mem : Memory) (o T : Nat)
    (hmem : (⟨o, .rebase T⟩ : ChainEntry) ∈ c.entries)
    (hnodup : (c.entries.map ChainEntry.slotOffset).Nodup)
    (hok : (runChainApply c slide symTable mem).2 = none) :
    (runChainApply c slide symTable mem).1 (c.segBase + o) = ((T + slide : Nat) : Int) := by
  unfold runChainApply at hok ⊢
  cases hd : decodeChain c.segSize slide symTable c.entries with
  | error e => rw [hd] at hok; simp at hok
  | ok ops =>
    exact decode_apply_rebase c.segSize slide symTable c.entries ops mem
      c.segBase o T hd hmem hnodup

/-- Witness for C4 on a concrete two-entry rebase chain. -/
theorem rebase_entry_writes_target_plus_slide_witness :
    (⟨0, .rebase 100⟩ : ChainEntry) ∈ chainOk.entries ∧
    (chainOk.entries.map ChainEntry.slotOffset).Nodup ∧
    (runChainApply chainOk 50 [] mem0).2 = none ∧
    (runChainApply chainOk 50 [] mem0).1 (chainOk.segBase + 0) = ((100 + 50 : Nat) : Int) :=
  ⟨by decide, by decide, rfl,
    rebase_entry_writes_target_plus_slide chainOk 50 [] mem0 0 100
      (by decide) (by decide) rfl⟩

theorem resolveEntry_error_malformed (segSize slide : Nat) (symTable : List Nat)
    (e : ChainEntry)
    (h : resolveEntry segSize slide symTable e = .error .MalformedFixupChain) :
    slotInBounds segSize e = false := by
  unfold resolveEntry at h
  cases hin : slotInBounds segSize e
  · rfl
  · exfalso
    rw [hin] at h
    simp only [if_true] at h
    cases hk : e.kind with
    | rebase t => rw [hk] at h; simp [resolveKind] at h
    | bind ord a =>
      rw [hk] at h
      simp only [resolveKind] at h
      cases hs : symTable.get? ord with
      | some s => rw [hs] at h; simp at h
      | none => rw [hs] at h; simp at h

theorem resolveEntry_error_unresolved (segSize slide : Nat) (symTable : List Nat)
    (e : ChainEntry)
    (h : resolveEntry segSize slide symTable e = .error .UnresolvedSymbol) :
    ∃ ord a, e.kind = .bind ord a ∧ symTable.length ≤ ord := by
  unfold resolveEntry at h
  cases hin : slotInBounds segSize e
  · rw [hin] at h; simp at h
  · rw [hin] at h
    simp only [if_true] at h
    cases hk : e.kind with
    | rebase t => rw [hk] at h; simp [resolveKind] at h
    | bind ord a =>
      rw [hk] at h
      simp only [resolveKind] at h
      cases hs : symTable.get? ord with
      | some s => rw [hs] at h; simp at h
      | none => exact ⟨ord, a, rfl, List.get?_eq_none.mp hs⟩

theorem resolveEntry_error_of_bad (segSize slide : Nat) (symTable : List Nat)
    (e : ChainEntry)
    (hbad : slotInBounds segSize e = false ∨
      (∃ ord a, e.kind = .bind ord a ∧ symTable.length ≤ ord)) :
    ∃ err, resolveEntry segSize slide symTable e = .error err := by
  unfold resolveEntry
  rcases hbad with hb | ⟨ord, a, hk, hord⟩
  · rw [hb]
    exact ⟨.MalformedFixupChain, rfl⟩
  · cases hin : slotInBounds segSize e
    · exact ⟨.MalformedFixupChain, by simp⟩
    · refine ⟨.UnresolvedSymbol, ?_⟩
      rw [hk]
      simp only [if_true, resolveKind]
      rw [List.get?_eq_none.mpr hord]

theorem decodeChain_error_of_entry (segSize slide : Nat) (symTable : List Nat) :
    ∀ (entries : List ChainEntry),
      (∃ e ∈ entries, ∃ err, resolveEntry segSize slide symTable e = .error err) →
      ∃ err, decodeChain segSize slide symTable entries = .error err
  | [], h => absurd h (by simp)
  | e :: rest, h => by
      unfold decodeChain
      cases hr : resolveEntry segSize slide symTable e with
      | error err => exact ⟨err, rfl⟩
      | ok v =>
        have hrest : ∃ q ∈ rest, ∃ err, resolveEntry segSize slide symTable q = .error err := by
          obtain ⟨q, hq, err, he⟩ := h
          rcases List.mem_cons.mp hq with rfl | hq'
          · rw [hr] at he; cases he
          · exact ⟨q, hq', err, he⟩
        obtain ⟨err, herr⟩ := decodeChain_error_of_entry segSize slide symTable rest hrest
        rw [herr]
        exact ⟨err, rfl⟩

theorem decodeChain_error_mem (segSize slide : Nat) (symTable : List Nat) :
    ∀ (entries : List ChainEntry) (err : FixupError),
      decodeChain segSize slide symTable entries = .error err →
      ∃ e ∈ entries, resolveEntry segSize slide symTable e = .error err
  | [], err, h => by unfold decodeChain at h; cases h
  | e :: rest, err, h => by
      unfold decodeChain at h
      cases hr : resolveEntry segSize slide symTable e with
      | error err2 =>
        rw [hr] at h
        cases h
        exact ⟨e, List.mem_cons_self _ _, hr⟩
      | ok v =>
        rw [hr] at h
        cases hd : decodeChain segSize slide symTable rest with
        | error err2 =>
          rw [hd] at h
          cases h
          obtain ⟨q, hq, hqe⟩ := decodeChain_error_mem segSize slide symTable rest _ hd
          exact ⟨q, List.mem_cons_of_mem _ hq, hqe⟩
        | ok vs => rw [hd] at h; cases h

/-- C8: decoding a chain with a slot offset outside its segment, or a bind
ordinal outside the external-symbol table, writes no memory at all and
returns a MalformedFixupChain failure (traceable to an out-of-bounds slot)
or an UnresolvedSymbol failure (traceable to a bad ordinal) instead of
applying any fixup. -/
theorem chain_safety (c : SegmentChain) (slide : Nat) (symTable : List Nat)
    (mem : Memory)
    (hbad : (∃ e ∈ c.entries, slotInBounds c.segSize e = false) ∨
      (∃ e ∈ c.entries, ∃ ord a, e.kind = .bind ord a ∧ symTable.length ≤ ord)) :
    (runChainApply c slide symTable mem).1 = mem ∧
    ∃ err, (runChainApply c slide symTable mem).2 = some err ∧
      (err = .MalformedFixupChain → ∃ e ∈ c.entries, slotInBounds c.segSize e = false) ∧
      (err = .UnresolvedSymbol →
        ∃ e ∈ c.entries, ∃ ord a, e.kind = .bind ord a ∧ symTable.length ≤ ord) := by
  have hex : ∃ e ∈ c.entries, ∃ err, resolveEntry c.segSize slide symTable e = .error err := by
    rcases hbad with ⟨e, he, hb⟩ | ⟨e, he, ord, a, hk, hord⟩
    · exact ⟨e, he, resolveEntry_error_of_bad _ _ _ _ (Or.inl hb)⟩
    · exact ⟨e, he, resolveEntry_error_of_bad _ _ _ _ (Or.inr ⟨ord, a, hk, hord⟩)⟩
  obtain ⟨err, herr⟩ := decodeChain_error_of_entry _ _ _ _ hex
  unfold runChainApply
  rw [herr]
  refine ⟨rfl, err, rfl, ?_, ?_⟩
  · rintro rfl
    obtain ⟨e, he, hre⟩ := decodeChain_error_mem _ _ _ _ _ herr
    exact ⟨e, he, resolveEntry_error_malformed _ _ _ _ hre⟩
  · rintro rfl
    obtain ⟨e, he, hre⟩ := decodeChain_error_mem _ _ _ _ _ herr
    exact ⟨e, he, resolveEntry_error_unresolved _ _ _ _ hre⟩

/-- Witness for C8 on a concrete chain whose only entry has an
out-of-bounds slot offset. -/
theorem chain_safety_witness :
    ((∃ e ∈ chainBadSlot.entries, slotInBounds chainBadSlot.segSize e = false) ∨
      (∃ e ∈ chainBadSlot.entries, ∃ ord a,
        e.kind = .bind ord a ∧ List.length ([] : List Nat) ≤ ord)) ∧
    ((runChainApply chainBadSlot 5 [] mem0).1 = mem0 ∧
      ∃ err, (runChainApply chainBadSlot 5 [] mem0).2 = some err ∧
        (err = .MalformedFixupChain →
          ∃ e ∈ chainBadSlot.entries, slotInBounds chainBadSlot.segSize e = false) ∧
        (err = .UnresolvedSymbol →
          ∃ e ∈ chainBadSlot.entries, ∃ ord a,
            e.kind = .bind ord a ∧ List.length ([] : List Nat) ≤ ord)) :=
  ⟨Or.inl ⟨⟨100, .rebase 5⟩, by decide, by decide⟩,
    chain_safety chainBadSlot 5 [] mem0
      (Or.inl ⟨⟨100, .rebase 5⟩, by decide, by decide⟩)⟩

/-! ## rebaseDyld lemmas -/

theorem decodeAllChains_error_of_chain (slide : Nat) (symTable : List Nat) :
    ∀ (chains : List SegmentChain),
      (∃ c ∈ chains, ∃ err, decodeChain c.segSize slide symTable c.entries = .error err) →
      ∃ err, decodeAllChains slide symTable chains = .error err
  | [], h => absurd h (by simp)
  | c :: rest, h => by
      unfold decodeAllChains
      cases hc : decodeChain c.segSize slide symTable c.entries with
      | error err => exact ⟨err, rfl⟩
      | ok ops =>
        have hrest : ∃ q ∈ rest, ∃ err,
            decodeChain q.segSize slide symTable q.entries = .error err := by
          obtain ⟨q, hq, err, he⟩ := h
          rcases List.mem_cons.mp hq with rfl | hq'
          · rw [hc] at he; cases he
          · exact ⟨q, hq', err, he⟩
        obtain ⟨err, herr⟩ := decodeAllChains_error_of_chain slide symTable rest hrest
        rw [herr]
        exact ⟨err, rfl⟩

theorem fixupAllChainedFixups_error (chains : List SegmentChain) (slide : Nat)
    (symTable : List Nat) (mem : Memory)
    (h : ∃ c ∈ chains, ∃ err, decodeChain c.segSize slide symTable c.entries = .error err) :
    ∃ err, fixupAllChainedFixups chains slide symTable mem = (mem, some err) := by
  obtain ⟨err, herr⟩ := decodeAllChains_error_of_chain slide symTable chains h
  unfold fixupAllChainedFixups
  rw [herr]
  exact ⟨err, rfl⟩

theorem rebaseDyld_ok_inv (img : MachOImage) (mem : Memory) (tr : List RDEvent)
    (m : Memory) (p : List Prot) (h : rebaseDyld img mem = .ok tr m p) :
    tr = [RDEvent.applyChainedFixups (slideFor img) [], RDEvent.machInit] ++
      mprotectEvents img ∧
    p = protAfterRebase img := by
  unfold rebaseDyld at h
  by_cases hcf : img.hasChainedFixups = true
  · rw [if_pos hcf] at h
    rcases hfx : fixupAllChainedFixups img.chains (slideFor img) [] mem with ⟨m2, e2⟩
    rw [hfx] at h
    cases e2 with
    | none => cases h; exact ⟨rfl, rfl⟩
    | some err => cases h
  · rw [if_neg hcf] at h; cases h

/-- C2 (amended): the loader initializes the mach/syscall layer after the
fixup chains have been applied but before the read-only-data segments are
downgraded: every successful bootstrap trace is exactly the fixup
application, then machInit, then the mprotect calls. -/
theorem machInit_after_fixups_before_protects (img : MachOImage) (mem : Memory)
    (tr : List RDEvent) (h : (rebaseDyld img mem).traceOf = some tr) :
    tr = [RDEvent.applyChainedFixups (slideFor img) [], RDEvent.machInit] ++
      mprotectEvents img := by
  cases hr : rebaseDyld img mem with
  | fatal r m => rw [hr] at h; unfold RDResult.traceOf at h; cases h
  | ok tr2 m p =>
    rw [hr] at h
    unfold RDResult.traceOf at h
    cases h
    exact (rebaseDyld_ok_inv img mem _ m p hr).1

/-- Witness for the amended C2 on the concrete loader image imgOk. -/
theorem machInit_after_fixups_before_protects_witness :
    ([RDEvent.applyChainedFixups 4096 [], RDEvent.machInit,
      RDEvent.mprotectCall 4352 128 VM_PROT_READ] : List RDEvent) =
      [RDEvent.applyChainedFixups (slideFor imgOk) [], RDEvent.machInit] ++
        mprotectEvents imgOk :=
  machInit_after_fixups_before_protects imgOk mem0 _ rfl

/-- C2 counterexample: on the loader image imgOk the successful bootstrap
trace initializes the mach/syscall layer before the read-only-data
protection downgrade, refuting the claim that the syscall layer is
initialized only after every such downgrade. -/
theorem machInit_before_protects_counterexample :
    (rebaseDyld imgOk mem0).traceOf =
      some [RDEvent.applyChainedFixups 4096 [], RDEvent.machInit,
        RDEvent.mprotectCall 4352 128 VM_PROT_READ] ∧
    machInitOnlyAfterProtects
      [RDEvent.applyChainedFixups 4096 [], RDEvent.machInit,
        RDEvent.mprotectCall 4352 128 VM_PROT_READ] = false :=
  ⟨rfl, by decide⟩

/-- C5: rebaseDyld applies the loader's fixup chains with an empty
external-symbol table, and any fixup error during bootstrap is fatal:
whenever the fixup application reports an error, rebaseDyld ends in the
diagnostics-assertion abort rather than continuing or recovering, in
particular when a chain holds a bind entry (unresolvable against the empty
table) and when a chain is malformed (an out-of-bounds slot offset). -/
theorem rebaseDyld_empty_symtable_fatal_on_error (img : MachOImage) (mem : Memory)
    (hcf : img.hasChainedFixups = true) :
    (∀ tr, (rebaseDyld img mem).traceOf = some tr →
      RDEvent.applyChainedFixups (slideFor img) [] ∈ tr) ∧
    (∀ m err,
      fixupAllChainedFixups img.chains (slideFor img) [] mem = (m, some err) →
      rebaseDyld img mem = .fatal (.diagAssertError err) m) ∧
    ((∃ c ∈ img.chains, ∃ e ∈ c.entries, ∃ ord a, e.kind = FixupKind.bind ord a) →
      ∃ err, rebaseDyld img mem = .fatal (.diagAssertError err) mem) ∧
    ((∃ c ∈ img.chains, ∃ e ∈ c.entries, slotInBounds c.segSize e = false) →
      ∃ err, rebaseDyld img mem = .fatal (.diagAssertError err) mem) := by
  have hfat : ∀ m err,
      fixupAllChainedFixups img.chains (slideFor img) [] mem = (m, some err) →
      rebaseDyld img mem = .fatal (.diagAssertError err) m := by
    intro m err h
    unfold rebaseDyld
    rw [if_pos hcf, h]
  refine ⟨?_, hfat, ?_, ?_⟩
  · intro tr h
    cases hr : rebaseDyld img mem with
    | fatal r m => rw [hr] at h; unfold RDResult.traceOf at h; cases h
    | ok tr2 m p =>
      rw [hr] at h
      unfold RDResult.traceOf at h
      cases h
      rw [(rebaseDyld_ok_inv img mem _ m p hr).1]
      exact List.mem_cons_self _ _
  · rintro ⟨c, hc, e, he, ord, a, hk⟩
    have hbind : ∃ err0, resolveEntry c.segSize (slideFor img) [] e = .error err0 :=
      resolveEntry_error_of_bad _ _ _ _ (Or.inr ⟨ord, a, hk, Nat.zero_le _⟩)
    have hchain : ∃ err1, decodeChain c.segSize (slideFor img) [] c.entries = .error err1 :=
      decodeChain_error_of_entry _ _ _ _ ⟨e, he, hbind⟩
    obtain ⟨err, herr⟩ :=
      fixupAllChainedFixups_error img.chains (slideFor img) [] mem ⟨c, hc, hchain⟩
    exact ⟨err, hfat mem err herr⟩
  · rintro ⟨c, hc, e, he, hb⟩
    have hslot : ∃ err0, resolveEntry c.segSize (slideFor img) [] e = .error err0 :=
      resolveEntry_error_of_bad _ _ _ _ (Or.inl hb)
    have hchain : ∃ err1, decodeChain c.segSize (slideFor img) [] c.entries = .error err1 :=
      decodeChain_error_of_entry _ _ _ _ ⟨e, he, hslot⟩
    obtain ⟨err, herr⟩ :=
      fixupAllChainedFixups_error img.chains (slideFor img) [] mem ⟨c, hc, hchain⟩
    exact ⟨err, hfat mem err herr⟩

/-- Witness for C5 on the concrete image imgBadChains, whose chains hold
both a bind entry and an out-of-bounds rebase slot. -/
theorem rebaseDyld_empty_symtable_fatal_on_error_witness :
    (∀ tr, (rebaseDyld imgBadChains mem0).traceOf = some tr →
      RDEvent.applyChainedFixups (slideFor imgBadChains) [] ∈ tr) ∧
    (∀ m err,
      fixupAllChainedFixups imgBadChains.chains (slideFor imgBadChains) [] mem0 =
        (m, some err) →
      rebaseDyld imgBadChains mem0 = .fatal (.diagAssertError err) m) ∧
    ((∃ c ∈ imgBadChains.chains, ∃ e ∈ c.entries, ∃ ord a,
        e.kind = FixupKind.bind ord a) →
      ∃ err, rebaseDyld imgBadChains mem0 = .fatal (.diagAssertError err) mem0) ∧
    ((∃ c ∈ imgBadChains.chains, ∃ e ∈ c.entries,
        slotInBounds c.segSize e = false) →
      ∃ err, rebaseDyld imgBadChains mem0 = .fatal (.diagAssertError err) mem0) :=
  rebaseDyld_empty_symtable_fatal_on_error imgBadChains mem0 rfl

/-- C6: after a completed bootstrap, every read-only-data segment of the
loader image carries the read-only protection, which is not writable; the
bootstrap path performs no further protection change after rebaseDyld. -/
theorem readonly_data_not_writable_after_bootstrap (img : MachOImage) (mem : Memory)
    (i : Nat) (s : SegmentInfo)
    (hok : (startFinal img mem).isSome = true)
    (hseg : img.segments.get? i = some s)
    (hrod : s.readOnlyData = true) :
    startProtAt img mem i = some VM_PROT_READ ∧ VM_PROT_READ.write = false := by
  refine ⟨?_, rfl⟩
  unfold startProtAt startFinal
  unfold startFinal at hok
  cases hr : rebaseDyld img mem with
  | fatal r m => rw [hr] at hok; simp at hok
  | ok tr m p =>
    show p.get? i = some VM_PROT_READ
    rw [(rebaseDyld_ok_inv img mem tr m p hr).2]
    unfold protAfterRebase
    rw [List.get?_eq_getElem?, List.getElem?_map, ← List.get?_eq_getElem?, hseg]
    simp [hrod]

/-- Witness for C6 on imgOk, whose second segment is read-only data. -/
theorem readonly_data_not_writable_after_bootstrap_witness :
    (startFinal imgOk mem0).isSome = true ∧
    imgOk.segments.get? 1 = some ⟨256, 128, true, ⟨true, true, false⟩⟩ ∧
    (startProtAt imgOk mem0 1 = some VM_PROT_READ ∧ VM_PROT_READ.write = false) :=
  ⟨rfl, rfl,
    readonly_data_not_writable_after_bootstrap imgOk mem0 1
      ⟨256, 128, true, ⟨true, true, false⟩⟩ rfl rfl rfl⟩

/-- C7: the slide used when rebasing the loader image equals load address
minus preferred base; with the chained-fixup preferred base of zero, the
slide recorded in the fixup application equals the load address itself. -/
theorem slide_is_load_address_minus_preferred_base (img : MachOImage)
    (mem : Memory) (tr : List RDEvent)
    (h0 : img.preferredBase = 0)
    (h : (rebaseDyld img mem).traceOf = some tr) :
    slideFor img = img.loadAddress - img.preferredBase ∧
    RDEvent.applyChainedFixups (img.loadAddress - img.preferredBase) [] ∈ tr := by
  have hs : slideFor img = img.loadAddress - img.preferredBase := by
    rw [h0, Nat.sub_zero]; rfl
  refine ⟨hs, ?_⟩
  cases hr : rebaseDyld img mem with
  | fatal r m => rw [hr] at h; unfold RDResult.traceOf at h; cases h
  | ok tr2 m p =>
    rw [hr] at h
    unfold RDResult.traceOf at h
    cases h
    rw [(rebaseDyld_ok_inv img mem _ m p hr).1, ← hs]
    exact List.mem_cons_self _ _

/-- Witness for C7 on imgOk, whose preferred base is zero. -/
theorem slide_is_load_address_minus_preferred_base_witness :
    slideFor imgOk = imgOk.loadAddress - imgOk.preferredBase ∧
    RDEvent.applyChainedFixups (imgOk.loadAddress - imgOk.preferredBase) [] ∈
      ([RDEvent.applyChainedFixups 4096 [], RDEvent.machInit,
        RDEvent.mprotectCall 4352 128 VM_PROT_READ] : List RDEvent) :=
  slide_is_load_address_minus_preferred_base imgOk mem0 _ rfl rfl

/-- C9: rebaseDyld requires the loader image to use chained fixups;
without chained-fixups metadata the bootstrap aborts via the assertion
before applying any fixup, leaving memory untouched. -/
theorem rebaseDyld_asserts_chained_fixups (img : MachOImage) (mem : Memory)
    (h : img.hasChainedFixups = false) :
    rebaseDyld img mem = .fatal .assertNoChainedFixups mem := by
  simp [rebaseDyld, h]

/-- Witness for C9 on the image without chained-fixups metadata. -/
theorem rebaseDyld_asserts_chained_fixups_witness :
    rebaseDyld imgNoCF mem0 = .fatal .assertNoChainedFixups mem0 :=
  rebaseDyld_asserts_chained_fixups imgNoCF mem0 rfl

/-! ## Bootstrap entry path theorems -/

/-- C3 (amended): on each bootstrap entry path rebaseDyld is applied to
the loader's image exactly once; on the start path no loader global is
read or written before it, while on the start_sim path the loader global
gSyscallHelpers is written immediately before it. -/
theorem rebase_once_per_entry_path (img : MachOImage) (mem : Memory) :
    rebaseRunCount (startTrace img mem) = 1 ∧
    noGlobalAccessBeforeRebase (startTrace img mem) = true ∧
    rebaseRunCount (startSimTrace img mem) = 1 ∧
    beforeRebase (startSimTrace img mem) = [BootEvent.globalWrite "gSyscallHelpers"] := by
  cases hr : rebaseDyld img mem with
  | fatal r m =>
    refine ⟨?_, ?_, ?_, ?_⟩ <;> simp only [startTrace, startSimTrace, hr] <;> decide
  | ok tr m p =>
    refine ⟨?_, ?_, ?_, ?_⟩ <;> simp only [startTrace, startSimTrace, hr] <;> decide

/-- C3 counterexample: on the simulator entry path with the concrete
loader image imgOk, the loader global gSyscallHelpers is written before
rebaseDyld runs, so a bootstrap entry path does access a loader global
before self-relocation. -/
theorem global_written_before_rebase_counterexample :
    startSimTrace imgOk mem0 =
      [BootEvent.globalWrite "gSyscallHelpers", BootEvent.rebaseDyldRun,
        BootEvent.guardSetup, BootEvent.globalWrite "gProcessInfo",
        BootEvent.syncProcessInfoRun, BootEvent.callMain] ∧
    noGlobalAccessBeforeRebase
      [BootEvent.globalWrite "gSyscallHelpers", BootEvent.rebaseDyldRun,
        BootEvent.guardSetup, BootEvent.globalWrite "gProcessInfo",
        BootEvent.syncProcessInfoRun, BootEvent.callMain] = false :=
  ⟨rfl, by decide⟩

/-- C10: in the simulator entry point start_sim the loader global
gSyscallHelpers is written with the host-supplied table before rebaseDyld
is invoked on the loader's own image. -/
theorem start_sim_writes_helpers_before_rebase (img : MachOImage) (mem : Memory) :
    (startSimTrace img mem).take 2 =
      [BootEvent.globalWrite "gSyscallHelpers", BootEvent.rebaseDyldRun] := by
  cases hr : rebaseDyld img mem <;> simp only [startSimTrace, hr] <;> decide

/-! ## Load orchestrator theorems -/

theorem collect_paths_not_in_registry (univ : List ImageSpec) (reg : List String) :
    ∀ (fuel : Nat) (pending : List String) (acc imgs : List ImageSpec),
      (∀ i ∈ acc, i.path ∉ reg) →
      collect univ reg fuel pending acc = .ok imgs →
      ∀ i ∈ imgs, i.path ∉ reg := by
  intro fuel
  induction fuel with
  | zero =>
    intro pending acc imgs hacc h
    cases pending with
    | nil => unfold collect at h; cases h; exact hacc
    | cons p rest => unfold collect at h; cases h
  | succ fuel ih =>
    intro pending acc imgs hacc h
    cases pending with
    | nil => unfold collect at h; cases h; exact hacc
    | cons p rest =>
      unfold collect at h
      by_cases hp : p ∈ reg ∨ p ∈ acc.map ImageSpec.path
      · rw [if_pos hp] at h
        exact ih rest acc imgs hacc h
      · rw [if_neg hp] at h
        cases hf : univ.find? (fun i => i.path == p) with
        | none => rw [hf] at h; cases h
        | some img =>
          rw [hf] at h
          refine ih (img.deps ++ rest) (acc ++ [img]) imgs ?_ h
          intro i hi
          rcases List.mem_append.mp hi with hi' | hi'
          · exact hacc i hi'
          · have hieq : i = img := by simpa using hi'
            subst hieq
            have hpred := List.find?_some hf
            have hpath : i.path = p := eq_of_beq hpred
            rw [hpath]
            intro hcontra
            exact hp (Or.inl hcontra)

/-- C1: a load attempt (dlopen with the must-resolve-now flag) whose
dependency graph contains an image that fails to bind returns a null
handle, leaves image_count at its pre-attempt value, and no registry index
holds any of the paths introduced by the failed attempt. -/
theorem load_bind_failure_is_atomic (univ : List ImageSpec) (reg : List String)
    (root : String) (fuel : Nat) (imgs : List ImageSpec)
    (hc : collect univ reg fuel [root] [] = .ok imgs)
    (hb : ∃ i ∈ imgs, i.bindsOk = false) :
    (load univ reg root true fuel).1 = none ∧
    image_count (load univ reg root true fuel).2 = image_count reg ∧
    ∀ k p, image_name_at (load univ reg root true fuel).2 k = some p →
      p ∉ imgs.map ImageSpec.path := by
  have hall : imgs.all (fun i => i.bindsOk) = false := by
    obtain ⟨i, hi, hbi⟩ := hb
    cases hx : imgs.all (fun i => i.bindsOk)
    · rfl
    · have := List.all_eq_true.mp hx i hi
      rw [hbi] at this
      cases this
  have hload : load univ reg root true fuel = (none, reg) := by
    simp [load, hc, hall]
  refine ⟨by rw [hload], by rw [hload], ?_⟩
  intro k p hk hpin
  rw [hload] at hk
  unfold image_name_at at hk
  have hpreg : p ∈ reg := List.get?_mem hk
  obtain ⟨i, hi, hip⟩ := List.mem_map.mp hpin
  have hnotin := collect_paths_not_in_registry univ reg fuel [root] [] imgs
    (by simp) hc i hi
  rw [hip] at hnotin
  exact hnotin hpreg

/-- Witness for C1 on the sample graph liba depends on libb depends on
libc, where libc fails to bind. -/
theorem load_bind_failure_is_atomic_witness :
    collect sampleUniv sampleReg 10 ["liba"] [] = .ok [specA, specB, specC] ∧
    (∃ i ∈ [specA, specB, specC], i.bindsOk = false) ∧
    ((load sampleUniv sampleReg "liba" true 10).1 = none ∧
      image_count (load sampleUniv sampleReg "liba" true 10).2 = image_count sampleReg ∧
      ∀ k p, image_name_at (load sampleUniv sampleReg "liba" true 10).2 k = some p →
        p ∉ [specA, specB, specC].map ImageSpec.path) :=
  ⟨rfl, ⟨specC, by decide, rfl⟩,
    load_bind_failure_is_atomic sampleUniv sampleReg "liba" 10 [specA, specB, specC]
      rfl ⟨specC, by decide, rfl⟩⟩

end DyldSpec
